import Mathlib

/-!
Verification of the ant-consensus agreement engine.

Machine integers are modelled as `ℕ`, floating-point scalars as `ℚ`
(the code performs only field operations and comparisons on them),
Rust `HashSet` as a duplicate-free `List` with insert-if-absent, and
`HashMap<ConsensusValue, Vec<Pheromone>>` as an association list.
Mutating methods become state-passing functions.
-/

set_option maxRecDepth 100000

namespace AntConsensus

/-- Pheromone intensity threshold for consensus (`pheromone.rs`). -/
def CONSENSUS_THRESHOLD : ℚ := 8/10

/-- Minimum pheromone intensity before removal (`pheromone.rs`). -/
def MIN_PHEROMONE_INTENSITY : ℚ := 1/100

/-- Initial pheromone intensity when emitted (`pheromone.rs`). -/
def INITIAL_PHEROMONE_INTENSITY : ℚ := 1

/-- Consensus value: identified by its 32-byte SHA-256 digest (`types.rs`). -/
structure ConsensusValue where
  hash : List ℕ
deriving DecidableEq

/-- A signed, timestamped, intensity-bearing trail marker (`pheromone.rs`). -/
structure Pheromone where
  timestamp : ℕ
  intensity : ℚ
  source : ℕ
  value : ConsensusValue
  signature : List ℕ
deriving DecidableEq

/-- Rust `Pheromone::evaporate`: `self.intensity *= 1.0 - rate;` (`pheromone.rs` lines 71-73). -/
def Pheromone.evaporate (p : Pheromone) (rate : ℚ) : Pheromone :=
  { p with intensity := p.intensity * (1 - rate) }

/-- Rust `Pheromone::strength` (`pheromone.rs`). -/
def Pheromone.strength (p : Pheromone) : ℚ :=
  p.intensity

/-- Rust `Pheromone::is_strong_enough` (`pheromone.rs`). -/
def Pheromone.is_strong_enough (p : Pheromone) : Bool :=
  CONSENSUS_THRESHOLD ≤ p.intensity

/-- Rust `Pheromone::should_remove` (`pheromone.rs`). -/
def Pheromone.should_remove (p : Pheromone) : Bool :=
  p.intensity < MIN_PHEROMONE_INTENSITY

/-- Clamping of a rate into [0,1], as the spec describes it
("Rate must be in [0,1]; values outside are clamped").
The code of `Pheromone::evaporate` performs no such clamping;
this definition exists only to compare the spec with the code. -/
def specClamp01 (rate : ℚ) : ℚ :=
  max 0 (min rate 1)

/-- A concrete pheromone at full intensity. -/
def pUnit : Pheromone :=
  ⟨0, 1, 0, ⟨[]⟩, []⟩

/-- A concrete pheromone with negative intensity (reachable: evaporating
`pUnit` at rate 2 produces intensity -1). -/
def pNeg : Pheromone :=
  ⟨0, -1, 0, ⟨[]⟩, []⟩

/-- Claim C2 is false on the code at explicit inputs: evaporating a
pheromone of intensity 1 at rate 2 yields intensity -1, not
`1 * (1 - clamp 2 0 1) = 0` — no clamping happens; moreover a pheromone
whose intensity is negative (reachable via rate 2) grows under a rate in
[0,1], so "new intensity ≤ old intensity" also fails as stated. -/
theorem claim_C2_counterexample :
    (pUnit.evaporate 2).intensity = -1 ∧
    pUnit.intensity * (1 - specClamp01 2) = 0 ∧
    ¬ (pUnit.evaporate 2).intensity = pUnit.intensity * (1 - specClamp01 2) ∧
    pNeg.evaporate 2 = { pUnit with intensity := 1 } ∧
    ¬ (pNeg.evaporate (1/2)).intensity ≤ pNeg.intensity := by
  refine ⟨?_, ?_, ?_, ?_, ?_⟩ <;>
    simp [pUnit, pNeg, Pheromone.evaporate, specClamp01] <;> norm_num

/-- Claim C2 (amended): `evaporate(rate)` always sets the intensity to
`intensity * (1 - rate)`; no clamping of the rate occurs. For a rate in
[0,1] applied to a nonnegative intensity, the new intensity is at most
the old intensity. -/
theorem claim_C2 (p : Pheromone) (rate : ℚ) :
    (p.evaporate rate).intensity = p.intensity * (1 - rate) ∧
    (0 ≤ rate → rate ≤ 1 → 0 ≤ p.intensity →
      (p.evaporate rate).intensity ≤ p.intensity) := by
  constructor
  · rfl
  · intro h0 h1 hp
    show p.intensity * (1 - rate) ≤ p.intensity
    nlinarith

/-- Witness for C2: the amended claim evaluated on a concrete pheromone
of intensity 1 and rate 1/2. -/
theorem claim_C2_witness :
    (pUnit.evaporate (1/2)).intensity = pUnit.intensity * (1 - (1/2)) ∧
    (pUnit.evaporate (1/2)).intensity ≤ pUnit.intensity := by
  refine ⟨(claim_C2 pUnit (1/2)).1, (claim_C2 pUnit (1/2)).2 ?_ ?_ ?_⟩ <;> norm_num [pUnit]

/-- Initial energy level for ants (`ant_agent.rs`). -/
def INITIAL_ANT_ENERGY : ℚ := 100

/-- Energy decay rate per step (`ant_agent.rs`). -/
def ENERGY_DECAY_RATE : ℚ := 1/10

/-- Minimum energy to stay alive (`ant_agent.rs`). -/
def MIN_ANT_ENERGY : ℚ := 0

/-- Maximum number of nodes an ant can remember (`ant_agent.rs`). -/
def ANT_MEMORY_SIZE : ℕ := 256

/-- Rust `HashSet::insert`: add the element when absent (set semantics, order
irrelevant). -/
def hsInsert (s : List ℕ) (x : ℕ) : List ℕ :=
  if x ∈ s then s else x :: s

/-- Rust `HashSet::remove`: drop the element (on duplicate-free lists `erase`
removes exactly the occurrences of `x`). -/
def hsRemove (s : List ℕ) (x : ℕ) : List ℕ :=
  s.erase x

/-- Mobile ant agent (`ant_agent.rs`). -/
structure AntAgent where
  id : ℕ
  current_node : ℕ
  carried_pheromone : Option Pheromone
  visited_nodes : List ℕ
  energy_level : ℚ
  start_node : ℕ
deriving DecidableEq

/-- Rust `AntAgent::new` (`ant_agent.rs` lines 42-54). -/
def AntAgent.new (id start_node : ℕ) : AntAgent :=
  { id := id
    current_node := start_node
    carried_pheromone := none
    visited_nodes := [start_node]
    energy_level := INITIAL_ANT_ENERGY
    start_node := start_node }

/-- Rust `AntAgent::with_pheromone` (`ant_agent.rs` lines 57-61). -/
def AntAgent.with_pheromone (id start_node : ℕ) (pheromone : Pheromone) : AntAgent :=
  { AntAgent.new id start_node with carried_pheromone := some pheromone }

/-- Rust `AntAgent::update_energy` (`ant_agent.rs`). -/
def AntAgent.update_energy (a : AntAgent) : AntAgent :=
  { a with energy_level := a.energy_level - ENERGY_DECAY_RATE }

/-- Rust `AntAgent::is_alive` (`ant_agent.rs`). -/
def AntAgent.is_alive (a : AntAgent) : Bool :=
  MIN_ANT_ENERGY < a.energy_level

/-- Rust `AntAgent::move_to` (`ant_agent.rs` lines 134-143): insert the node,
set it current, and if the visited set then exceeds 256 entries remove
`start_node` from it. -/
def AntAgent.move_to (a : AntAgent) (node : ℕ) : AntAgent :=
  if ANT_MEMORY_SIZE < (hsInsert a.visited_nodes node).length then
    { a with visited_nodes := hsRemove (hsInsert a.visited_nodes node) a.start_node,
             current_node := node }
  else
    { a with visited_nodes := hsInsert a.visited_nodes node, current_node := node }

/-- Rust `AntAgent::drop_pheromone` (`ant_agent.rs`): returns the carried
pheromone and the ant with it cleared. -/
def AntAgent.drop_pheromone (a : AntAgent) : Option Pheromone × AntAgent :=
  (a.carried_pheromone, { a with carried_pheromone := none })

/-- Rust `AntAgent::pick_up_pheromone` (`ant_agent.rs`). -/
def AntAgent.pick_up_pheromone (a : AntAgent) (pheromone : Pheromone) : AntAgent :=
  { a with carried_pheromone := some pheromone }

/-- The ant obtained from `AntAgent::new(1, 0)` by moving through the
fresh nodes 1, 2, ..., 257 in order. -/
def antOverflow : AntAgent :=
  (List.range' 1 257).foldl AntAgent.move_to (AntAgent.new 1 0)

/-- The ant obtained from `AntAgent::new(1, 0)` by moving through the
fresh nodes 1, ..., 256 and then back to the start node 0. -/
def antLost : AntAgent :=
  ((List.range' 1 256).foldl AntAgent.move_to (AntAgent.new 1 0)).move_to 0

lemma hsInsert_of_not_mem {s : List ℕ} {x : ℕ} (h : x ∉ s) : hsInsert s x = x :: s :=
  if_neg h

lemma move_to_of_small {a : AntAgent} {node : ℕ} (h1 : node ∉ a.visited_nodes)
    (h2 : a.visited_nodes.length + 1 ≤ 256) :
    a.move_to node =
      { a with visited_nodes := node :: a.visited_nodes, current_node := node } := by
  rw [AntAgent.move_to, hsInsert_of_not_mem h1, if_neg]
  simp [ANT_MEMORY_SIZE]
  omega

lemma move_to_of_evict {a : AntAgent} {node : ℕ} (h1 : node ∉ a.visited_nodes)
    (h2 : 256 < a.visited_nodes.length + 1) :
    a.move_to node =
      { a with visited_nodes := (node :: a.visited_nodes).erase a.start_node,
               current_node := node } := by
  rw [AntAgent.move_to, hsInsert_of_not_mem h1, if_pos]
  · rfl
  · simpa [ANT_MEMORY_SIZE] using h2

/-- State of the trail ant after visiting the fresh nodes `1, ..., k` for
`k ≤ 255`: no eviction has happened yet. -/
lemma antTrail_spec : ∀ k : ℕ, k ≤ 255 →
    (List.range' 1 k).foldl AntAgent.move_to (AntAgent.new 1 0)
      = { id := 1, current_node := if k = 0 then 0 else k, carried_pheromone := none,
          visited_nodes := (List.range' 1 k).reverse ++ [0],
          energy_level := 100, start_node := 0 } := by
  intro k
  induction k with
  | zero => intro _; simp [AntAgent.new, INITIAL_ANT_ENERGY]
  | succ k ih =>
    intro hk
    rw [List.range'_1_concat, List.foldl_append, ih (by omega)]
    have h1 : (1 + k) ∉ (List.range' 1 k).reverse ++ [0] := by
      simp [List.mem_range'_1]
    rw [List.foldl_cons, List.foldl_nil,
      move_to_of_small h1 (by simp [List.length_range']; omega)]
    simp [List.reverse_append, Nat.add_comm]

/-- The state of the trail ant after 256 fresh moves, as a definition. -/
def antFullState : AntAgent :=
  { id := 1, current_node := 256, carried_pheromone := none,
    visited_nodes := 256 :: (List.range' 1 255).reverse,
    energy_level := 100, start_node := 0 }

/-- State of the trail ant after visiting the fresh nodes `1, ..., 256`:
the 256th move overflows the bound and evicts the start node `0`. -/
lemma antFull_spec :
    (List.range' 1 256).foldl AntAgent.move_to (AntAgent.new 1 0) = antFullState := by
  have h256 : (256 : ℕ) = 255 + 1 := by norm_num
  rw [h256, List.range'_1_concat, List.foldl_append, antTrail_spec 255 (by omega)]
  have h1 : (1 + 255) ∉ (List.range' 1 255).reverse ++ [0] := by
    simp [List.mem_range'_1]
  rw [List.foldl_cons, List.foldl_nil,
    move_to_of_evict h1 (by simp [List.length_range'])]
  simp only [List.cons_append, List.erase_cons]
  rw [List.erase_append_right _ (by simp [List.mem_range'_1])]
  simp [antFullState]

/-- Claim C3 fails on the code: after `new(1, 0)` and 257 `move_to` calls
on fresh nodes the visited set holds 257 > 256 entries. The 256th fresh
move evicts `start_node`; from then on the eviction step removes nothing
and the set grows past the documented `ANT_MEMORY_SIZE` bound. -/
theorem claim_C3_code_bug :
    antOverflow.visited_nodes.length = 257 ∧
    ANT_MEMORY_SIZE < antOverflow.visited_nodes.length := by
  have h257 : (257 : ℕ) = 256 + 1 := by norm_num
  have h1 : (1 + 256) ∉ antFullState.visited_nodes := by
    simp [antFullState, List.mem_range'_1]
  have hspec : antOverflow.visited_nodes = (1 + 256) :: antFullState.visited_nodes := by
    rw [antOverflow, h257, List.range'_1_concat, List.foldl_append, antFull_spec]
    rw [List.foldl_cons, List.foldl_nil,
      move_to_of_evict h1 (by simp [antFullState, List.length_range'])]
    show ((1 + 256) :: antFullState.visited_nodes).erase antFullState.start_node = _
    rw [show antFullState.start_node = 0 from rfl]
    rw [List.erase_of_not_mem (by simp [antFullState, List.mem_range'_1])]
  rw [hspec]
  constructor
  · simp [antFullState, List.length_range']
  · simp [ANT_MEMORY_SIZE, antFullState, List.length_range']

/-- Claim C4 fails on the code: moving back to `start_node` when the
visited set is at its 256-entry bound re-inserts it, overflows the bound,
and the eviction step then removes `start_node` — which is the current
node — so `current_node ∈ visited_nodes` is violated. -/
theorem claim_C4_code_bug :
    antLost.current_node = 0 ∧ antLost.current_node ∉ antLost.visited_nodes := by
  have h0 : (0 : ℕ) ∉ antFullState.visited_nodes := by
    simp [antFullState, List.mem_range'_1]
  have hspec : antLost = { antFullState with current_node := 0 } := by
    rw [antLost, antFull_spec, move_to_of_evict h0 (by simp [antFullState, List.length_range'])]
    show ({ antFullState with
        visited_nodes := ((0 :: antFullState.visited_nodes).erase antFullState.start_node),
        current_node := 0 } : AntAgent) = _
    rw [show antFullState.start_node = 0 from rfl, List.erase_cons_head]
  rw [hspec]
  exact ⟨rfl, h0⟩

/-- The unvisited neighbors, in the order of the input list
(`ant_agent.rs` lines 85-89). -/
def availableNeighbors (a : AntAgent) (neighbors : List ℕ) : List ℕ :=
  neighbors.filter (fun node => decide (node ∉ a.visited_nodes))

/-- Intensity lookup with default 0.1 for unexplored paths
(`ant_agent.rs` lines 101-105). -/
def lookupIntensity (pheromone_intensities : List (ℕ × ℚ)) (neighbor : ℕ) : ℚ :=
  match pheromone_intensities.find? (fun q => decide (q.1 = neighbor)) with
  | some q => q.2
  | none => 1/10

/-- The roulette-wheel loop (`ant_agent.rs` lines 122-127): accumulate
intensities and return the first node whose cumulative sum reaches the
random value. -/
def roulette (random_value : ℚ) : List (ℕ × ℚ) → ℚ → Option ℕ
  | [], _ => none
  | q :: rest, cumulative =>
    if random_value ≤ cumulative + q.2 then some q.1
    else roulette random_value rest (cumulative + q.2)

/-- The `probabilities` vector built by `select_next_node`
(`ant_agent.rs` lines 97-109): one `(neighbor, intensity)` pair per
available neighbor, in order. -/
def probabilitiesOf (a : AntAgent) (neighbors : List ℕ)
    (pheromone_intensities : List (ℕ × ℚ)) : List (ℕ × ℚ) :=
  (availableNeighbors a neighbors).map
    (fun neighbor => (neighbor, lookupIntensity pheromone_intensities neighbor))

/-- The `total_intensity` accumulated by the same loop. -/
def totalIntensity (a : AntAgent) (neighbors : List ℕ)
    (pheromone_intensities : List (ℕ × ℚ)) : ℚ :=
  ((probabilitiesOf a neighbors pheromone_intensities).map Prod.snd).sum

/-- Rust `AntAgent::select_next_node` (`ant_agent.rs` lines 75-131). The two
internal random draws are passed as oracles: `ridx` is the result of
`rng.gen_range(0..available_neighbors.len())` and `rflt` the result of
`rng.gen::<f64>()`. -/
def AntAgent.select_next_node (a : AntAgent) (neighbors : List ℕ)
    (pheromone_intensities : List (ℕ × ℚ)) (ridx : ℕ) (rflt : ℚ) : Option ℕ :=
  if neighbors.isEmpty then none
  else if (availableNeighbors a neighbors).isEmpty then neighbors.head?
  else if totalIntensity a neighbors pheromone_intensities = 0 then
    (availableNeighbors a neighbors).get? ridx
  else
    match roulette (rflt * totalIntensity a neighbors pheromone_intensities)
        (probabilitiesOf a neighbors pheromone_intensities) 0 with
    | some node => some node
    | none => (availableNeighbors a neighbors).head?

lemma roulette_mem {random_value : ℚ} :
    ∀ (l : List (ℕ × ℚ)) (c : ℚ) (x : ℕ), roulette random_value l c = some x →
      x ∈ l.map Prod.fst := by
  intro l
  induction l with
  | nil => intro c x h; simp [roulette] at h
  | cons q rest ih =>
    intro c x h
    rw [roulette] at h
    by_cases hc : random_value ≤ c + q.2
    · rw [if_pos hc] at h
      simp at h
      simp [h]
    · rw [if_neg hc] at h
      simpa using Or.inr (ih _ x h)

lemma availableNeighbors_sub {a : AntAgent} {neighbors : List ℕ} :
    ∀ x ∈ availableNeighbors a neighbors, x ∈ neighbors ∧ x ∉ a.visited_nodes := by
  intro x hx
  rw [availableNeighbors] at hx
  have := List.of_mem_filter hx
  exact ⟨List.mem_of_mem_filter hx, by simpa using this⟩

/-- Claim C6: for every ant, neighbor list, intensity list and outcome of
the internal random draws, `select_next_node` returns `none` iff the
neighbor list is empty; when all neighbors are visited it returns the
first neighbor; otherwise it returns some element of the unvisited
neighbors; and every returned node is an element of `neighbors`. -/
theorem claim_C6 (a : AntAgent) (neighbors : List ℕ)
    (pheromone_intensities : List (ℕ × ℚ)) (ridx : ℕ) (rflt : ℚ)
    (hridx : availableNeighbors a neighbors ≠ [] →
      ridx < (availableNeighbors a neighbors).length) :
    (a.select_next_node neighbors pheromone_intensities ridx rflt = none ↔ neighbors = []) ∧
    (neighbors ≠ [] → availableNeighbors a neighbors = [] →
      a.select_next_node neighbors pheromone_intensities ridx rflt = neighbors.head?) ∧
    (availableNeighbors a neighbors ≠ [] →
      ∃ x, a.select_next_node neighbors pheromone_intensities ridx rflt = some x ∧
        x ∈ neighbors ∧ x ∉ a.visited_nodes) ∧
    (∀ x, a.select_next_node neighbors pheromone_intensities ridx rflt = some x →
      x ∈ neighbors) := by
  by_cases hnb : neighbors = []
  · subst hnb
    refine ⟨by simp [AntAgent.select_next_node], by simp, ?_, ?_⟩
    · intro hav
      exact absurd (by simp [availableNeighbors]) hav
    · intro x hx
      simp [AntAgent.select_next_node] at hx
  · have hnbe : neighbors.isEmpty = false := by
      simpa [List.isEmpty_iff] using hnb
    by_cases hav : availableNeighbors a neighbors = []
    · have have1 : (availableNeighbors a neighbors).isEmpty = true := by
        simp [List.isEmpty_iff, hav]
      have hsel : a.select_next_node neighbors pheromone_intensities ridx rflt
          = neighbors.head? := by
        rw [AntAgent.select_next_node, if_neg (by simp [hnbe]), if_pos (by simp [have1])]
      obtain ⟨y, ys, hy⟩ := List.exists_cons_of_ne_nil hnb
      refine ⟨?_, fun _ _ => hsel, fun h => absurd hav h, ?_⟩
      · rw [hsel, hy]
        simp
      · intro x hx
        rw [hsel, hy] at hx
        simp only [List.head?_cons, Option.some.injEq] at hx
        rw [hy, ← hx]
        exact List.mem_cons_self y ys
    · have have1 : (availableNeighbors a neighbors).isEmpty = false := by
        simpa [List.isEmpty_iff] using hav
      have hsub := @availableNeighbors_sub a neighbors
      have hgoal : ∃ x,
          a.select_next_node neighbors pheromone_intensities ridx rflt = some x ∧
            x ∈ availableNeighbors a neighbors := by
        rw [AntAgent.select_next_node, if_neg (by simp [hnbe]), if_neg (by simp [have1])]
        by_cases htot : totalIntensity a neighbors pheromone_intensities = 0
        · rw [if_pos htot]
          have hlt := hridx hav
          exact ⟨(availableNeighbors a neighbors).get ⟨ridx, hlt⟩,
            List.get?_eq_get hlt, List.get_mem _ _ _⟩
        · rw [if_neg htot]
          have hmapfst : (probabilitiesOf a neighbors pheromone_intensities).map Prod.fst
              = availableNeighbors a neighbors := by
            simp only [probabilitiesOf, List.map_map]
            exact List.map_id _
          cases hrl : roulette (rflt * totalIntensity a neighbors pheromone_intensities)
              (probabilitiesOf a neighbors pheromone_intensities) 0 with
          | some node =>
            refine ⟨node, rfl, ?_⟩
            have := roulette_mem (probabilitiesOf a neighbors pheromone_intensities) 0 node hrl
            rwa [hmapfst] at this
          | none =>
            obtain ⟨y, ys, hy⟩ := List.exists_cons_of_ne_nil hav
            exact ⟨y, by rw [hy]; rfl, by rw [hy]; exact List.mem_cons_self y ys⟩
      obtain ⟨x, hx, hxav⟩ := hgoal
      refine ⟨?_, ?_, ?_, ?_⟩
      · rw [hx]
        simp [hnb]
      · intro _ h
        exact absurd h hav
      · exact fun _ => ⟨x, hx, (hsub x hxav).1, (hsub x hxav).2⟩
      · intro z hz
        rw [hx] at hz
        cases hz
        exact (hsub x hxav).1

/-- Witness for C6: a fresh ant at node 10 with neighbor list `[11, 12]`
and one intensity entry; the hypothesis on the index draw is discharged
at `ridx = 0`. -/
theorem claim_C6_witness :
    ((AntAgent.new 1 10).select_next_node [11, 12] [(11, 1/2)] 0 0 = none ↔ ([11, 12] : List ℕ) = []) ∧
    (availableNeighbors (AntAgent.new 1 10) [11, 12] ≠ [] →
      ∃ x, (AntAgent.new 1 10).select_next_node [11, 12] [(11, 1/2)] 0 0 = some x ∧
        x ∈ [11, 12] ∧ x ∉ (AntAgent.new 1 10).visited_nodes) := by
  have h := claim_C6 (AntAgent.new 1 10) [11, 12] [(11, 1/2)] 0 0 (by
    intro _
    show 0 < (availableNeighbors (AntAgent.new 1 10) [11, 12]).length
    decide)
  exact ⟨h.1, h.2.2.1⟩

/-- Default evaporation rate for pheromones (`node_state.rs`). -/
def DEFAULT_EVAPORATION_RATE : ℚ := 1/100

/-- Node statistics (`node_state.rs`). -/
structure NodeStats where
  pheromones_received : ℕ
  pheromones_emitted : ℕ
  ants_created : ℕ
  consensus_reached : ℕ
  messages_sent : ℕ
  messages_received : ℕ
deriving DecidableEq

/-- Rust `NodeStats::default()`. -/
def initStats : NodeStats :=
  ⟨0, 0, 0, 0, 0, 0⟩

/-- Per-node state (`node_state.rs`). The `HashMap<ConsensusValue,
Vec<Pheromone>>` of buckets is modelled as an association list. -/
structure NodeState where
  id : ℕ
  current_value : Option ConsensusValue
  pheromones : List (ConsensusValue × List Pheromone)
  ants : List AntAgent
  neighbors : List ℕ
  evaporation_rate : ℚ
  stats : NodeStats
deriving DecidableEq

/-- Rust `NodeState::new` (`node_state.rs` lines 52-62). -/
def NodeState.new (id : ℕ) : NodeState :=
  { id := id
    current_value := none
    pheromones := []
    ants := []
    neighbors := []
    evaporation_rate := DEFAULT_EVAPORATION_RATE
    stats := initStats }

/-- Rust `NodeState::add_neighbor` (`node_state.rs` lines 65-69). -/
def NodeState.add_neighbor (s : NodeState) (neighbor : ℕ) : NodeState :=
  if neighbor ≠ s.id then { s with neighbors := hsInsert s.neighbors neighbor } else s

/-- Rust `HashMap::entry(value).or_insert_with(Vec::new).push(p)`: append the
pheromone to the bucket keyed by `value`, creating the bucket if absent. -/
def bucketInsert : List (ConsensusValue × List Pheromone) → ConsensusValue → Pheromone →
    List (ConsensusValue × List Pheromone)
  | [], value, p => [(value, [p])]
  | b :: rest, value, p =>
    if b.1 = value then (b.1, b.2 ++ [p]) :: rest
    else b :: bucketInsert rest value p

/-- Bucket lookup (`HashMap::get`). -/
def bucketLookup (l : List (ConsensusValue × List Pheromone)) (value : ConsensusValue) :
    Option (List Pheromone) :=
  (l.find? (fun b => decide (b.1 = value))).map Prod.snd

/-- Rust `NodeState::receive_pheromone` (`node_state.rs` lines 94-102). -/
def NodeState.receive_pheromone (s : NodeState) (pheromone : Pheromone) : NodeState :=
  { s with pheromones := bucketInsert s.pheromones pheromone.value pheromone,
           stats := { s.stats with
             pheromones_received := s.stats.pheromones_received + 1 } }

/-- Rust `NodeState::evaporate_pheromones` (`node_state.rs` lines 105-122):
evaporate every pheromone of every bucket at the node's rate, retain
those not `should_remove`, then drop buckets that became empty. -/
def NodeState.evaporate_pheromones (s : NodeState) : NodeState :=
  { s with pheromones :=
      ((s.pheromones.map (fun b =>
          (b.1, (b.2.map (fun p => p.evaporate s.evaporation_rate)).filter
            (fun p => ! p.should_remove)))).filter
        (fun b => ! b.2.isEmpty)) }

/-- Average pheromone intensity of one bucket (`node_state.rs`
lines 130-137): total strength divided by the bucket's length. -/
def bucketAvg (ps : List Pheromone) : ℚ :=
  (ps.map Pheromone.strength).sum / ps.length

/-- One step of the `check_consensus` fold (`node_state.rs`
lines 139-145): replace the best candidate when the new bucket's average
is strictly larger. -/
def bestStep (best_value : Option (ConsensusValue × ℚ)) (b : ConsensusValue × List Pheromone) :
    Option (ConsensusValue × ℚ) :=
  match best_value with
  | some (_, best_intensity) =>
    if best_intensity < bucketAvg b.2 then some (b.1, bucketAvg b.2) else best_value
  | none => some (b.1, bucketAvg b.2)

/-- The fold of `check_consensus` over the buckets (`node_state.rs`
lines 127-146): keep the bucket with the strictly largest average
intensity, earlier buckets winning ties. -/
def bestBucket (l : List (ConsensusValue × List Pheromone)) : Option (ConsensusValue × ℚ) :=
  l.foldl bestStep none

/-- Rust `NodeState::check_consensus` (`node_state.rs` lines 124-157),
returning the announced value together with the updated state. -/
def NodeState.check_consensus (s : NodeState) : Option ConsensusValue × NodeState :=
  match bestBucket s.pheromones with
  | some (value, intensity) =>
    if CONSENSUS_THRESHOLD ≤ intensity then
      (some value,
        { s with current_value := some value,
                 stats := { s.stats with
                   consensus_reached := s.stats.consensus_reached + 1 } })
    else (none, s)
  | none => (none, s)

/-- Rust `NodeState::get_strongest_pheromone` is not needed by any claim;
`add_ant`, `cleanup_dead_ants`, `update_ants` (`node_state.rs`): -/
def NodeState.add_ant (s : NodeState) (ant : AntAgent) : NodeState :=
  { s with ants := s.ants ++ [ant],
           stats := { s.stats with ants_created := s.stats.ants_created + 1 } }

def NodeState.cleanup_dead_ants (s : NodeState) : NodeState :=
  { s with ants := s.ants.filter AntAgent.is_alive }

def NodeState.update_ants (s : NodeState) : NodeState :=
  NodeState.cleanup_dead_ants { s with ants := s.ants.map AntAgent.update_energy }

lemma bestStep_spec (acc : Option (ConsensusValue × ℚ)) (b : ConsensusValue × List Pheromone) :
    ∃ v i, bestStep acc b = some (v, i) ∧ bucketAvg b.2 ≤ i ∧
      (∀ w j, acc = some (w, j) → j ≤ i) ∧
      ((v, i) = (b.1, bucketAvg b.2) ∨ acc = some (v, i)) := by
  match acc with
  | none =>
    refine ⟨b.1, bucketAvg b.2, rfl, le_refl _, ?_, Or.inl rfl⟩
    intro w j hwj
    cases hwj
  | some (w0, j0) =>
    by_cases hlt : j0 < bucketAvg b.2
    · refine ⟨b.1, bucketAvg b.2, ?_, le_refl _, ?_, Or.inl rfl⟩
      · simp [bestStep, hlt]
      · intro w j hwj
        cases hwj
        exact le_of_lt hlt
    · refine ⟨w0, j0, ?_, not_lt.mp hlt, ?_, Or.inr rfl⟩
      · simp [bestStep, hlt]
      · intro w j hwj
        cases hwj
        exact le_refl _

lemma bestFold_spec :
    ∀ (l : List (ConsensusValue × List Pheromone)) (acc : Option (ConsensusValue × ℚ))
      (v : ConsensusValue) (i : ℚ), l.foldl bestStep acc = some (v, i) →
      ((∃ b ∈ l, b.1 = v ∧ bucketAvg b.2 = i) ∨ acc = some (v, i)) ∧
      (∀ b ∈ l, bucketAvg b.2 ≤ i) ∧
      (∀ w j, acc = some (w, j) → j ≤ i) := by
  intro l
  induction l with
  | nil =>
    intro acc v i h
    simp only [List.foldl_nil] at h
    refine ⟨Or.inr h, by simp, ?_⟩
    intro w j hwj
    rw [h] at hwj
    cases hwj
    exact le_refl _
  | cons b rest ih =>
    intro acc v i h
    rw [List.foldl_cons] at h
    obtain ⟨hattain, hmax, hacc⟩ := ih (bestStep acc b) v i h
    obtain ⟨v', i', hstep, hble, haccle, hor⟩ := bestStep_spec acc b
    have hsteple : ∀ w j, bestStep acc b = some (w, j) → j ≤ i := hacc
    have hi' : i' ≤ i := hsteple v' i' hstep
    refine ⟨?_, ?_, ?_⟩
    · rcases hattain with hl | hstep'
      · obtain ⟨b', hb', hfst, havg⟩ := hl
        exact Or.inl ⟨b', List.mem_cons_of_mem b hb', hfst, havg⟩
      · rw [hstep] at hstep'
        cases hstep'
        rcases hor with heq | hacc'
        · cases heq
          exact Or.inl ⟨b, List.mem_cons_self b rest, rfl, rfl⟩
        · exact Or.inr hacc'
    · intro b' hb'
      rcases List.mem_cons.mp hb' with hbb | hrest
      · subst hbb
        exact le_trans hble hi'
      · exact hmax b' hrest
    · intro w j hwj
      exact le_trans (haccle w j hwj) hi'

lemma bestStep_isSome (acc : Option (ConsensusValue × ℚ)) (b : ConsensusValue × List Pheromone) :
    (bestStep acc b).isSome := by
  obtain ⟨v, i, h, -⟩ := bestStep_spec acc b
  simp [h]

lemma bestFold_isSome :
    ∀ (l : List (ConsensusValue × List Pheromone)) (acc : Option (ConsensusValue × ℚ)),
      acc.isSome → (l.foldl bestStep acc).isSome := by
  intro l
  induction l with
  | nil => intro acc h; simpa using h
  | cons b rest ih =>
    intro acc _
    rw [List.foldl_cons]
    exact ih (bestStep acc b) (bestStep_isSome acc b)

/-- The consensus value the three-pheromone examples advocate. -/
def vHigh : ConsensusValue :=
  ⟨[1]⟩

/-- A pheromone for `v` at a chosen intensity (timestamp, source and
signature are irrelevant to `check_consensus`). -/
def phromOf (v : ConsensusValue) (q : ℚ) : Pheromone :=
  ⟨0, q, 0, v, []⟩

/-- A node with a single bucket of pheromones at intensities 1.0, 0.9, 0.8. -/
def nodeHigh : NodeState :=
  { NodeState.new 1 with
    pheromones := [(vHigh, [phromOf vHigh 1, phromOf vHigh (9/10), phromOf vHigh (8/10)])] }

/-- A node with a single bucket of pheromones at intensities 0.7, 0.7, 0.7. -/
def nodeLow : NodeState :=
  { NodeState.new 1 with
    pheromones := [(vHigh, [phromOf vHigh (7/10), phromOf vHigh (7/10), phromOf vHigh (7/10)])] }

lemma bucketAvg_high :
    bucketAvg [phromOf vHigh 1, phromOf vHigh (9/10), phromOf vHigh (8/10)] = 9/10 := by
  simp [bucketAvg, phromOf, Pheromone.strength]
  norm_num

lemma bucketAvg_low :
    bucketAvg [phromOf vHigh (7/10), phromOf vHigh (7/10), phromOf vHigh (7/10)] = 7/10 := by
  simp [bucketAvg, phromOf, Pheromone.strength]
  norm_num

lemma bestBucket_nodeHigh : bestBucket nodeHigh.pheromones = some (vHigh, 9/10) := by
  simp [bestBucket, nodeHigh, NodeState.new, bestStep, bucketAvg_high]

lemma bestBucket_nodeLow : bestBucket nodeLow.pheromones = some (vHigh, 7/10) := by
  simp [bestBucket, nodeLow, NodeState.new, bestStep, bucketAvg_low]

lemma check_nodeHigh :
    nodeHigh.check_consensus =
      (some vHigh, { nodeHigh with current_value := some vHigh,
                                   stats := { nodeHigh.stats with consensus_reached := 1 } }) := by
  simp only [NodeState.check_consensus, bestBucket_nodeHigh]
  rw [if_pos (by norm_num [CONSENSUS_THRESHOLD])]
  rfl

lemma check_nodeLow : nodeLow.check_consensus = (none, nodeLow) := by
  simp only [NodeState.check_consensus, bestBucket_nodeLow]
  rw [if_neg (by norm_num [CONSENSUS_THRESHOLD])]

/-- Claim C1: on a state whose buckets are all non-empty,
`check_consensus` picks a bucket whose average intensity is maximal; if
that maximum reaches the 0.8 threshold it latches the bucket's value,
bumps the consensus counter and returns the value, otherwise it returns
`none` and leaves the state untouched. The two literal examples of the
spec are included. -/
theorem claim_C1 (s : NodeState) (hne : ∀ b ∈ s.pheromones, b.2 ≠ []) :
    (s.pheromones ≠ [] → ∃ v i, bestBucket s.pheromones = some (v, i)) ∧
    (∀ v i, bestBucket s.pheromones = some (v, i) →
      (∃ b ∈ s.pheromones, b.1 = v ∧ bucketAvg b.2 = i) ∧
      (∀ b ∈ s.pheromones, bucketAvg b.2 ≤ i) ∧
      (CONSENSUS_THRESHOLD ≤ i →
        s.check_consensus =
          (some v, { s with current_value := some v,
                            stats := { s.stats with
                              consensus_reached := s.stats.consensus_reached + 1 } })) ∧
      (i < CONSENSUS_THRESHOLD → s.check_consensus = (none, s))) ∧
    nodeHigh.check_consensus =
      (some vHigh, { nodeHigh with current_value := some vHigh,
                                   stats := { nodeHigh.stats with consensus_reached := 1 } }) ∧
    nodeLow.check_consensus = (none, nodeLow) := by
  refine ⟨?_, ?_, check_nodeHigh, check_nodeLow⟩
  · intro hl
    obtain ⟨b, rest, hbr⟩ := List.exists_cons_of_ne_nil hl
    have h1 : (bestBucket s.pheromones).isSome := by
      rw [bestBucket, hbr, List.foldl_cons]
      exact bestFold_isSome rest (bestStep none b) (bestStep_isSome none b)
    obtain ⟨⟨v, i⟩, hvi⟩ := Option.isSome_iff_exists.mp h1
    exact ⟨v, i, hvi⟩
  · intro v i hbest
    obtain ⟨hattain, hmax, -⟩ := bestFold_spec s.pheromones none v i hbest
    have hattain' : ∃ b ∈ s.pheromones, b.1 = v ∧ bucketAvg b.2 = i := by
      rcases hattain with h | h
      · exact h
      · cases h
    refine ⟨hattain', hmax, ?_, ?_⟩
    · intro hth
      simp only [NodeState.check_consensus, hbest]
      rw [if_pos hth]
    · intro hth
      simp only [NodeState.check_consensus, hbest]
      rw [if_neg (not_le.mpr hth)]

/-- Witness for C1: the non-emptiness hypothesis and the `bestBucket`
premise are discharged on the concrete high-intensity node, whose best
average 0.9 crosses the threshold. -/
theorem claim_C1_witness :
    (∃ b ∈ nodeHigh.pheromones, b.1 = vHigh ∧ bucketAvg b.2 = 9/10) ∧
    nodeHigh.check_consensus =
      (some vHigh, { nodeHigh with current_value := some vHigh,
                                   stats := { nodeHigh.stats with consensus_reached := 1 } }) := by
  have h := (claim_C1 nodeHigh (by decide)).2.1 vHigh (9/10) bestBucket_nodeHigh
  exact ⟨h.1, h.2.2.1 (by norm_num [CONSENSUS_THRESHOLD])⟩

/-- Claim C10: `check_consensus` never reads the previously latched
value: whenever `current_value` is already `some v` and a different
value `w` wins with a maximal average at or above the threshold, the
call overwrites `current_value` with `w` and returns `some w`. -/
theorem claim_C10 (s : NodeState) (v w : ConsensusValue) (i : ℚ)
    (hcur : s.current_value = some v) (hvw : w ≠ v)
    (hbest : bestBucket s.pheromones = some (w, i))
    (hth : CONSENSUS_THRESHOLD ≤ i) :
    s.check_consensus =
      (some w, { s with current_value := some w,
                        stats := { s.stats with
                          consensus_reached := s.stats.consensus_reached + 1 } }) ∧
    (s.check_consensus).2.current_value = some w := by
  have h : s.check_consensus =
      (some w, { s with current_value := some w,
                        stats := { s.stats with
                          consensus_reached := s.stats.consensus_reached + 1 } }) := by
    simp only [NodeState.check_consensus, hbest]
    rw [if_pos hth]
  exact ⟨h, by rw [h]⟩

/-- The high-intensity node with a previously latched different value. -/
def nodeRelatch : NodeState :=
  { nodeHigh with current_value := some ⟨[2]⟩ }

/-- Witness for C10: a node that had latched the value `⟨[2]⟩` relatches
to `vHigh` when `vHigh`'s bucket average 0.9 wins. -/
theorem claim_C10_witness :
    nodeRelatch.check_consensus =
      (some vHigh, { nodeRelatch with current_value := some vHigh,
                                      stats := { nodeRelatch.stats with consensus_reached := 1 } }) ∧
    (nodeRelatch.check_consensus).2.current_value = some vHigh := by
  exact claim_C10 nodeRelatch ⟨[2]⟩ vHigh (9/10) (by decide) (by decide) bestBucket_nodeHigh
    (by norm_num [CONSENSUS_THRESHOLD])

/-- Claim C8: after `evaporate_pheromones`, every bucket is non-empty,
every surviving pheromone has intensity at least the 0.01 removal floor,
and every surviving pheromone is the evaporation (by the node's rate) of
a pheromone that was in the bucket with the same key before. -/
theorem claim_C8 (s : NodeState) :
    ∀ b ∈ (s.evaporate_pheromones).pheromones,
      b.2 ≠ [] ∧
      ∀ p ∈ b.2,
        MIN_PHEROMONE_INTENSITY ≤ p.intensity ∧
        ∃ ps, (b.1, ps) ∈ s.pheromones ∧ ∃ q ∈ ps,
          p = q.evaporate s.evaporation_rate ∧
          p.intensity = q.intensity * (1 - s.evaporation_rate) := by
  intro b hb
  rw [NodeState.evaporate_pheromones] at hb
  simp only at hb
  have hb2 := List.of_mem_filter hb
  have hbm := List.mem_of_mem_filter hb
  obtain ⟨b0, hb0, hbeq⟩ := List.mem_map.mp hbm
  constructor
  · intro hnil
    rw [hnil] at hb2
    simp at hb2
  · intro p hp
    rw [← hbeq] at hp
    simp only at hp
    have hkeep := List.of_mem_filter hp
    have hpm := List.mem_of_mem_filter hp
    obtain ⟨q, hq, hqe⟩ := List.mem_map.mp hpm
    have hfloor : MIN_PHEROMONE_INTENSITY ≤ p.intensity := by
      rw [Pheromone.should_remove] at hkeep
      simp only [Bool.not_eq_true'] at hkeep
      have := of_decide_eq_false hkeep
      exact not_lt.mp this
    refine ⟨hfloor, b0.2, ?_, q, hq, hqe.symm, ?_⟩
    · rw [← hbeq]
      simpa using hb0
    · rw [← hqe]
      rfl

/-- Witness state for C8: the high-intensity node after one evaporation
round at the default rate 0.01. -/
def bucketHighEvap : List Pheromone :=
  [(phromOf vHigh 1).evaporate (1/100), (phromOf vHigh (9/10)).evaporate (1/100),
    (phromOf vHigh (8/10)).evaporate (1/100)]

/-- Witness for C8: the bucket membership hypotheses are discharged on
the concrete evaporated node. -/
theorem claim_C8_witness :
    bucketHighEvap ≠ [] ∧
    MIN_PHEROMONE_INTENSITY ≤ ((phromOf vHigh 1).evaporate (1/100)).intensity := by
  have hmem : (vHigh, bucketHighEvap) ∈ (nodeHigh.evaporate_pheromones).pheromones := by
    rw [NodeState.evaporate_pheromones]
    simp only [nodeHigh, NodeState.new]
    refine List.mem_filter.mpr ⟨?_, ?_⟩
    · refine List.mem_map.mpr ⟨(vHigh, [phromOf vHigh 1, phromOf vHigh (9/10), phromOf vHigh (8/10)]), by simp, ?_⟩
      simp only [bucketHighEvap, List.map_cons, List.map_nil, List.filter]
      norm_num [Pheromone.should_remove, Pheromone.evaporate, phromOf,
        MIN_PHEROMONE_INTENSITY, DEFAULT_EVAPORATION_RATE]
    · simp [bucketHighEvap]
  have h := claim_C8 nodeHigh (vHigh, bucketHighEvap) hmem
  refine ⟨h.1, ?_⟩
  have h2 := h.2 ((phromOf vHigh 1).evaporate (1/100)) (by simp [bucketHighEvap])
  exact h2.1

/-- Typed network messages (`message.rs` lines 7-39). -/
inductive Message where
  | PheromoneBroadcast (pheromone : Pheromone) (sender : ℕ)
  | AntMovement (ant_id : ℕ) (from_node : ℕ) (to_node : ℕ)
      (carried_pheromone : Option Pheromone)
  | NeighborDiscovery (node_id : ℕ) (neighbors : List ℕ)
  | ConsensusAnnouncement (node_id : ℕ) (value : ConsensusValue)
  | Heartbeat (node_id : ℕ) (timestamp : ℕ)
deriving DecidableEq

/-- Rust `NetworkManager::handle_message` (`multicast.rs` lines 167-231): the
state mutation performed for each inbound message. -/
def handle_message (message : Message) (state : NodeState) : NodeState :=
  match message with
  | .PheromoneBroadcast pheromone sender =>
    if sender = state.id then state
    else (state.add_neighbor sender).receive_pheromone pheromone
  | .AntMovement _ _ to_node carried_pheromone =>
    if to_node = state.id then
      match carried_pheromone with
      | some pheromone => state.receive_pheromone pheromone
      | none => state
    else state
  | .NeighborDiscovery node_id neighbors =>
    if node_id ≠ state.id then
      neighbors.foldl NodeState.add_neighbor (state.add_neighbor node_id)
    else state
  | .ConsensusAnnouncement node_id _ =>
    if node_id ≠ state.id then state else state
  | .Heartbeat node_id _ =>
    if node_id ≠ state.id then state.add_neighbor node_id else state

lemma bucketLookup_insert_self :
    ∀ (l : List (ConsensusValue × List Pheromone)) (v : ConsensusValue) (p : Pheromone),
      bucketLookup (bucketInsert l v p) v = some ((bucketLookup l v).getD [] ++ [p]) := by
  intro l
  induction l with
  | nil => intro v p; simp [bucketInsert, bucketLookup, List.find?]
  | cons b rest ih =>
    intro v p
    by_cases hb : b.1 = v
    · rw [bucketInsert, if_pos hb]
      simp [bucketLookup, List.find?, hb]
    · rw [bucketInsert, if_neg hb]
      have ih' := ih v p
      simp only [bucketLookup] at ih' ⊢
      simp only [List.find?]
      rw [decide_eq_false hb]
      exact ih'

lemma bucketLookup_insert_other :
    ∀ (l : List (ConsensusValue × List Pheromone)) (v : ConsensusValue) (p : Pheromone)
      (w : ConsensusValue), w ≠ v →
      bucketLookup (bucketInsert l v p) w = bucketLookup l w := by
  intro l
  induction l with
  | nil =>
    intro v p w hw
    simp [bucketInsert, bucketLookup, List.find?, Ne.symm hw]
  | cons b rest ih =>
    intro v p w hw
    by_cases hb : b.1 = v
    · rw [bucketInsert, if_pos hb]
      have hbw : b.1 ≠ w := by rw [hb]; exact fun h => hw h.symm
      simp only [bucketLookup, List.find?]
      rw [decide_eq_false hbw]
    · rw [bucketInsert, if_neg hb]
      by_cases hbw : b.1 = w
      · simp only [bucketLookup, List.find?]
        rw [decide_eq_true hbw]
      · have ih' := ih v p w hw
        simp only [bucketLookup] at ih' ⊢
        simp only [List.find?]
        rw [decide_eq_false hbw]
        exact ih'

/-- Claim C9: handling an inbound `PheromoneBroadcast` from the node
itself leaves the state unchanged; from any other sender it inserts the
sender into the neighbor set, appends the pheromone to the bucket keyed
by the pheromone's value (leaving every other bucket unchanged),
increments the received counter, and changes nothing else. -/
theorem claim_C9 (s : NodeState) (p : Pheromone) (sender : ℕ) :
    (sender = s.id → handle_message (Message.PheromoneBroadcast p sender) s = s) ∧
    (sender ≠ s.id →
      handle_message (Message.PheromoneBroadcast p sender) s =
        { s with neighbors := hsInsert s.neighbors sender,
                 pheromones := bucketInsert s.pheromones p.value p,
                 stats := { s.stats with
                   pheromones_received := s.stats.pheromones_received + 1 } } ∧
      bucketLookup (bucketInsert s.pheromones p.value p) p.value
        = some ((bucketLookup s.pheromones p.value).getD [] ++ [p]) ∧
      (∀ w, w ≠ p.value →
        bucketLookup (bucketInsert s.pheromones p.value p) w = bucketLookup s.pheromones w)) := by
  constructor
  · intro h
    rw [handle_message, if_pos h]
  · intro h
    refine ⟨?_, bucketLookup_insert_self s.pheromones p.value p,
      fun w hw => bucketLookup_insert_other s.pheromones p.value p w hw⟩
    rw [handle_message, if_neg h, NodeState.add_neighbor]
    rw [if_pos h]
    rw [NodeState.receive_pheromone]

/-- Witness for C9: a fresh node with id 1 receiving a broadcast from
node 2, and the self-message case at sender 1. -/
theorem claim_C9_witness :
    handle_message (Message.PheromoneBroadcast (phromOf vHigh 1) 1) (NodeState.new 1)
      = NodeState.new 1 ∧
    handle_message (Message.PheromoneBroadcast (phromOf vHigh 1) 2) (NodeState.new 1)
      = { NodeState.new 1 with
          neighbors := hsInsert (NodeState.new 1).neighbors 2,
          pheromones := bucketInsert (NodeState.new 1).pheromones (phromOf vHigh 1).value
            (phromOf vHigh 1),
          stats := { (NodeState.new 1).stats with pheromones_received := 1 } } := by
  refine ⟨(claim_C9 (NodeState.new 1) (phromOf vHigh 1) 1).1 (by decide), ?_⟩
  have h := ((claim_C9 (NodeState.new 1) (phromOf vHigh 1) 2).2 (by decide)).1
  rw [h]
  rfl

/-!
Serialization. `Message::to_bytes`/`from_bytes` (`message.rs` lines
42-52) delegate to the external `serde_json` crate, which is not part of
this repository. Modelled from the spec: "a self-describing structured
text encoding of the tagged union" with the variant tags and field names
of `message.rs`; numbers are decimal, the floating-point intensity is
carried exactly as a ratio, byte strings are bracketed comma-separated
lists, an absent carried pheromone is the literal `null`.
-/

/-- Decimal digit character. -/
def digitChar (n : ℕ) : Char :=
  match n with
  | 0 => '0' | 1 => '1' | 2 => '2' | 3 => '3' | 4 => '4'
  | 5 => '5' | 6 => '6' | 7 => '7' | 8 => '8' | _ => '9'

/-- Decimal digits of `n`, most significant first (fuel-structured so the
kernel can evaluate it). -/
def natCharsAux : ℕ → ℕ → List Char
  | 0, _ => []
  | fuel + 1, n =>
    if n < 10 then [digitChar n]
    else natCharsAux fuel (n / 10) ++ [digitChar (n % 10)]

def natChars (n : ℕ) : List Char :=
  natCharsAux (n + 1) n

lemma natCharsAux_eq_of_lt :
    ∀ n, ∀ f1 f2 : ℕ, n < f1 → n < f2 → natCharsAux f1 n = natCharsAux f2 n := by
  intro n
  induction n using Nat.strong_induction_on with
  | _ n ih =>
    intro f1 f2 h1 h2
    match f1, f2 with
    | g1 + 1, g2 + 1 =>
      by_cases h : n < 10
      · simp [natCharsAux, h]
      · simp only [natCharsAux, if_neg h]
        have hd : n / 10 < n := Nat.div_lt_self (by omega) (by omega)
        rw [ih (n / 10) hd g1 g2 (by omega) (by omega)]

lemma natChars_eq (fuel n : ℕ) (h : n < fuel) : natCharsAux fuel n = natChars n :=
  natCharsAux_eq_of_lt n fuel (n + 1) h (Nat.lt_succ_self n)

lemma natChars_def (n : ℕ) :
    natChars n = if n < 10 then [digitChar n]
      else natChars (n / 10) ++ [digitChar (n % 10)] := by
  by_cases h : n < 10
  · simp [natChars, natCharsAux, h]
  · rw [natChars, natCharsAux, if_neg h, if_neg h,
      natChars_eq n (n / 10) (Nat.div_lt_self (by omega) (by omega))]

lemma digitChar_isDigit : ∀ d, d < 10 → (digitChar d).isDigit = true := by decide

lemma digitChar_val : ∀ d, d < 10 → (digitChar d).toNat - 48 = d := by decide

lemma digitChar_ne : ∀ d, d < 10 →
    ((digitChar d = '-') = False) ∧ ((digitChar d = ']') = False) ∧
    ((digitChar d = 'n') = False) := by decide

/-- Greedy digit run, with accumulator. -/
def parseNatAux : List Char → ℕ → ℕ × List Char
  | [], acc => (acc, [])
  | c :: cs, acc =>
    if c.isDigit then parseNatAux cs (acc * 10 + (c.toNat - 48)) else (acc, c :: cs)

def parseNat (cs : List Char) : ℕ × List Char :=
  parseNatAux cs 0

/-- Whether the input starts with a decimal digit. -/
def headDigit : List Char → Bool
  | [] => false
  | c :: _ => c.isDigit

/-- Whether the input starts with the given character. -/
def headIs : List Char → Char → Bool
  | [], _ => false
  | c :: _, d => c = d

lemma natChars_head : ∀ n, ∃ d rest, natChars n = digitChar d :: rest ∧ d < 10 := by
  intro n
  induction n using Nat.strong_induction_on with
  | _ n ih =>
    by_cases h : n < 10
    · exact ⟨n, [], by rw [natChars_def, if_pos h], h⟩
    · obtain ⟨d, rest, hd, hlt⟩ := ih (n / 10) (Nat.div_lt_self (by omega) (by omega))
      exact ⟨d, rest ++ [digitChar (n % 10)],
        by rw [natChars_def, if_neg h, hd]; rfl, hlt⟩

lemma parseNatAux_append :
    ∀ n t acc, parseNatAux (natChars n ++ t) acc
      = parseNatAux t (acc * 10 ^ (natChars n).length + n) := by
  intro n
  induction n using Nat.strong_induction_on with
  | _ n ih =>
    intro t acc
    by_cases h : n < 10
    · rw [natChars_def, if_pos h]
      show parseNatAux (digitChar n :: t) acc = _
      rw [parseNatAux, if_pos (digitChar_isDigit n h), digitChar_val n h]
      norm_num
    · have hd : n / 10 < n := Nat.div_lt_self (by omega) (by omega)
      have hm : n % 10 < 10 := Nat.mod_lt _ (by omega)
      rw [natChars_def, if_neg h, List.append_assoc, List.singleton_append,
        ih (n / 10) hd (digitChar (n % 10) :: t) acc]
      rw [parseNatAux, if_pos (digitChar_isDigit _ hm), digitChar_val _ hm]
      have hlen : (natChars (n / 10) ++ [digitChar (n % 10)]).length
          = (natChars (n / 10)).length + 1 := by
        simp
      rw [hlen]
      have hsplit : (acc * 10 ^ (natChars (n / 10)).length + n / 10) * 10 + n % 10
          = acc * 10 ^ ((natChars (n / 10)).length + 1) + n := by
        have hmod : n / 10 * 10 + n % 10 = n := by
          have := Nat.div_add_mod n 10
          omega
        calc (acc * 10 ^ (natChars (n / 10)).length + n / 10) * 10 + n % 10
            = acc * (10 ^ (natChars (n / 10)).length * 10) + (n / 10 * 10 + n % 10) := by ring
          _ = acc * 10 ^ ((natChars (n / 10)).length + 1) + n := by rw [hmod, pow_succ]
      rw [hsplit]

lemma parseNatAux_stop (t : List Char) (acc : ℕ) (h : headDigit t = false) :
    parseNatAux t acc = (acc, t) := by
  cases t with
  | nil => rfl
  | cons c cs =>
    rw [parseNatAux, if_neg]
    simpa [headDigit] using h

lemma parseNat_natChars (n : ℕ) (t : List Char) (h : headDigit t = false) :
    parseNat (natChars n ++ t) = (n, t) := by
  rw [parseNat, parseNatAux_append n t 0, parseNatAux_stop t _ h]
  norm_num

/-- Signed decimal integer. -/
def intChars (i : ℤ) : List Char :=
  if i < 0 then '-' :: natChars i.natAbs else natChars i.natAbs

def parseInt (cs : List Char) : ℤ × List Char :=
  if headIs cs '-' then
    ((-((parseNat cs.tail).1 : ℤ), (parseNat cs.tail).2))
  else
    (((parseNat cs).1 : ℤ), (parseNat cs).2)

lemma headDigit_natChars (n : ℕ) (t : List Char) :
    headDigit (natChars n ++ t) = true := by
  obtain ⟨d, rest, hd, hlt⟩ := natChars_head n
  rw [hd]
  show (digitChar d).isDigit = true
  exact digitChar_isDigit d hlt

lemma headIs_natChars_minus (n : ℕ) (t : List Char) :
    headIs (natChars n ++ t) '-' = false := by
  obtain ⟨d, rest, hd, hlt⟩ := natChars_head n
  rw [hd]
  show decide (digitChar d = '-') = false
  rw [decide_eq_false]
  rw [(digitChar_ne d hlt).1]
  exact not_false

lemma headIs_natChars_rbracket (n : ℕ) (t : List Char) :
    headIs (natChars n ++ t) ']' = false := by
  obtain ⟨d, rest, hd, hlt⟩ := natChars_head n
  rw [hd]
  show decide (digitChar d = ']') = false
  rw [decide_eq_false]
  rw [(digitChar_ne d hlt).2.1]
  exact not_false

lemma parseInt_intChars (i : ℤ) (t : List Char) (h : headDigit t = false) :
    parseInt (intChars i ++ t) = (i, t) := by
  by_cases hi : i < 0
  · rw [intChars, if_pos hi, List.cons_append, parseInt, if_pos (by rfl)]
    show (-(((parseNat (natChars i.natAbs ++ t)).1 : ℕ) : ℤ), (parseNat (natChars i.natAbs ++ t)).2) = _
    rw [parseNat_natChars _ _ h]
    have habs : ((i.natAbs : ℕ) : ℤ) = -i := Int.ofNat_natAbs_of_nonpos (le_of_lt hi)
    simp [habs]
  · rw [intChars, if_neg hi, parseInt, if_neg (by rw [headIs_natChars_minus]; exact Bool.false_ne_true)]
    rw [parseNat_natChars _ _ h]
    have habs : ((i.natAbs : ℕ) : ℤ) = i := Int.natAbs_of_nonneg (not_lt.mp hi)
    simp [habs]

/-- The intensity ratio: numerator, a slash, denominator. -/
def ratChars (q : ℚ) : List Char :=
  intChars q.num ++ '/' :: natChars q.den

def parseRat (cs : List Char) : Option (ℚ × List Char) :=
  match (parseInt cs).2 with
  | '/' :: r2 => some (mkRat (parseInt cs).1 (parseNat r2).1, (parseNat r2).2)
  | _ => none

lemma parseRat_ratChars (q : ℚ) (t : List Char) (h : headDigit t = false) :
    parseRat (ratChars q ++ t) = some (q, t) := by
  rw [ratChars, List.append_assoc, List.cons_append]
  rw [parseRat]
  rw [parseInt_intChars q.num ('/' :: (natChars q.den ++ t)) (by rfl)]
  simp only
  rw [parseNat_natChars _ _ h, Rat.mkRat_self]

/-- Bracketed comma-separated byte list. -/
def bytesAux : List ℕ → List Char
  | [] => [']']
  | [x] => natChars x ++ [']']
  | x :: xs => natChars x ++ ',' :: bytesAux xs

def bytesChars (l : List ℕ) : List Char :=
  '[' :: bytesAux l

def parseBytesAux : List Char → ℕ → List ℕ → Option (List ℕ × List Char)
  | [], _, _ => none
  | c :: cs, cur, acc =>
    if c.isDigit then parseBytesAux cs (cur * 10 + (c.toNat - 48)) acc
    else if c = ',' then parseBytesAux cs 0 (acc ++ [cur])
    else if c = ']' then some (acc ++ [cur], cs)
    else none

def parseBytes (cs : List Char) : Option (List ℕ × List Char) :=
  if headIs cs '[' then
    if headIs cs.tail ']' then some ([], cs.tail.tail)
    else parseBytesAux cs.tail 0 []
  else none

lemma parseBytesAux_append :
    ∀ n t cur acc, parseBytesAux (natChars n ++ t) cur acc
      = parseBytesAux t (cur * 10 ^ (natChars n).length + n) acc := by
  intro n
  induction n using Nat.strong_induction_on with
  | _ n ih =>
    intro t cur acc
    by_cases h : n < 10
    · rw [natChars_def, if_pos h, List.singleton_append]
      rw [parseBytesAux, if_pos (digitChar_isDigit n h), digitChar_val n h]
      norm_num
    · have hd : n / 10 < n := Nat.div_lt_self (by omega) (by omega)
      have hm : n % 10 < 10 := Nat.mod_lt _ (by omega)
      rw [natChars_def, if_neg h, List.append_assoc, List.singleton_append,
        ih (n / 10) hd (digitChar (n % 10) :: t) cur acc]
      rw [parseBytesAux, if_pos (digitChar_isDigit _ hm), digitChar_val _ hm]
      have hlen : (natChars (n / 10) ++ [digitChar (n % 10)]).length
          = (natChars (n / 10)).length + 1 := by
        simp
      rw [hlen]
      have hsplit : (cur * 10 ^ (natChars (n / 10)).length + n / 10) * 10 + n % 10
          = cur * 10 ^ ((natChars (n / 10)).length + 1) + n := by
        have hmod : n / 10 * 10 + n % 10 = n := by
          have := Nat.div_add_mod n 10
          omega
        calc (cur * 10 ^ (natChars (n / 10)).length + n / 10) * 10 + n % 10
            = cur * (10 ^ (natChars (n / 10)).length * 10) + (n / 10 * 10 + n % 10) := by ring
          _ = cur * 10 ^ ((natChars (n / 10)).length + 1) + n := by rw [hmod, pow_succ]
      rw [hsplit]

lemma parseBytesAux_rbracket (t : List Char) (cur : ℕ) (acc : List ℕ) :
    parseBytesAux (']' :: t) cur acc = some (acc ++ [cur], t) := rfl

lemma parseBytesAux_comma (t : List Char) (cur : ℕ) (acc : List ℕ) :
    parseBytesAux (',' :: t) cur acc = parseBytesAux t 0 (acc ++ [cur]) := rfl

lemma parseBytesAux_enc :
    ∀ (xs : List ℕ) (x : ℕ) (acc : List ℕ) (t : List Char),
      parseBytesAux (bytesAux (x :: xs) ++ t) 0 acc = some (acc ++ x :: xs, t) := by
  intro xs
  induction xs with
  | nil =>
    intro x acc t
    show parseBytesAux ((natChars x ++ [']']) ++ t) 0 acc = _
    rw [List.append_assoc, List.singleton_append, parseBytesAux_append,
      parseBytesAux_rbracket]
    norm_num
  | cons y ys ih =>
    intro x acc t
    show parseBytesAux ((natChars x ++ ',' :: bytesAux (y :: ys)) ++ t) 0 acc = _
    rw [List.append_assoc, List.cons_append, parseBytesAux_append,
      parseBytesAux_comma]
    norm_num
    rw [ih y (acc ++ [x]) t]
    simp

lemma parseBytes_enc (l : List ℕ) (t : List Char) :
    parseBytes (bytesChars l ++ t) = some (l, t) := by
  cases l with
  | nil => rfl
  | cons x xs =>
    rw [bytesChars, List.cons_append, parseBytes, if_pos (by rfl)]
    show (if headIs (bytesAux (x :: xs) ++ t) ']' = true then _ else
      parseBytesAux (bytesAux (x :: xs) ++ t) 0 []) = _
    have hnr : headIs (bytesAux (x :: xs) ++ t) ']' = false := by
      cases xs with
      | nil =>
        show headIs ((natChars x ++ [']']) ++ t) ']' = false
        rw [List.append_assoc]
        exact headIs_natChars_rbracket x _
      | cons y ys =>
        show headIs ((natChars x ++ ',' :: bytesAux (y :: ys)) ++ t) ']' = false
        rw [List.append_assoc]
        exact headIs_natChars_rbracket x _
    rw [if_neg (by rw [hnr]; exact Bool.false_ne_true)]
    rw [parseBytesAux_enc xs x [] t]
    simp

/-- A quoted field name followed by a colon. -/
def keyChars (s : String) : List Char :=
  '"' :: s.toList ++ '"' :: [':']

/-- Consume an exact literal prefix. -/
def expectChars : List Char → List Char → Option (List Char)
  | [], cs => some cs
  | _ :: _, [] => none
  | e :: es, c :: cs => if c = e then expectChars es cs else none

lemma expectChars_append : ∀ (e t : List Char), expectChars e (e ++ t) = some t := by
  intro e
  induction e with
  | nil => intro t; rfl
  | cons c cs ih =>
    intro t
    rw [List.cons_append, expectChars, if_pos rfl]
    exact ih t

/-- The fixed punctuation segments of the pheromone object. -/
def phSeg0 : List Char := '\x7b' :: keyChars ("timestamp")
def phSeg1 : List Char := ',' :: keyChars ("intensity")
def phSeg2 : List Char := ',' :: keyChars ("source")
def phSeg3 : List Char := ',' :: keyChars ("value") ++ '\x7b' :: keyChars ("hash")
def phSeg4 : List Char := '\x7d' :: ',' :: keyChars ("signature")
def phSeg5 : List Char := ['\x7d']

/-- Encoding of one pheromone record. -/
def encPheromone (p : Pheromone) : List Char :=
  phSeg0 ++ natChars p.timestamp ++ phSeg1 ++ ratChars p.intensity ++ phSeg2 ++
    natChars p.source ++ phSeg3 ++ bytesChars p.value.hash ++ phSeg4 ++
    bytesChars p.signature ++ phSeg5

def parsePheromone (cs : List Char) : Option (Pheromone × List Char) := do
  let r0 ← expectChars phSeg0 cs
  let n1 := parseNat r0
  let r2 ← expectChars phSeg1 n1.2
  let q3 ← parseRat r2
  let r4 ← expectChars phSeg2 q3.2
  let n5 := parseNat r4
  let r6 ← expectChars phSeg3 n5.2
  let h7 ← parseBytes r6
  let r8 ← expectChars phSeg4 h7.2
  let s9 ← parseBytes r8
  let r10 ← expectChars phSeg5 s9.2
  some (⟨n1.1, q3.1, n5.1, ⟨h7.1⟩, s9.1⟩, r10)

lemma headDigit_phSeg1 (t : List Char) : headDigit (phSeg1 ++ t) = false := rfl
lemma headDigit_phSeg2 (t : List Char) : headDigit (phSeg2 ++ t) = false := rfl
lemma headDigit_phSeg3 (t : List Char) : headDigit (phSeg3 ++ t) = false := rfl

lemma parsePheromone_enc (p : Pheromone) (t : List Char) :
    parsePheromone (encPheromone p ++ t) = some (p, t) := by
  rw [encPheromone]
  simp only [List.append_assoc]
  rw [parsePheromone]
  rw [expectChars_append]
  simp only [Option.bind_eq_bind, Option.some_bind]
  rw [parseNat_natChars _ _ (headDigit_phSeg1 _)]
  simp only
  rw [expectChars_append]
  simp only [Option.bind_eq_bind, Option.some_bind]
  rw [parseRat_ratChars _ _ (headDigit_phSeg2 _)]
  simp only [Option.bind_eq_bind, Option.some_bind]
  rw [expectChars_append]
  simp only [Option.bind_eq_bind, Option.some_bind]
  rw [parseNat_natChars _ _ (headDigit_phSeg3 _)]
  simp only
  rw [expectChars_append]
  simp only [Option.bind_eq_bind, Option.some_bind]
  rw [parseBytes_enc]
  simp only [Option.bind_eq_bind, Option.some_bind]
  rw [expectChars_append]
  simp only [Option.bind_eq_bind, Option.some_bind]
  rw [parseBytes_enc]
  simp only [Option.bind_eq_bind, Option.some_bind]
  rw [expectChars_append]
  simp only [Option.bind_eq_bind, Option.some_bind]

/-- The `null` literal for an absent carried pheromone. -/
def nullChars : List Char := ['n', 'u', 'l', 'l']

def encOptPh : Option Pheromone → List Char
  | none => nullChars
  | some p => encPheromone p

def parseOptPh (cs : List Char) : Option (Option Pheromone × List Char) :=
  if headIs cs 'n' then (expectChars nullChars cs).map (fun r => (none, r))
  else (parsePheromone cs).map (fun r => (some r.1, r.2))

lemma parseOptPh_enc (op : Option Pheromone) (t : List Char) :
    parseOptPh (encOptPh op ++ t) = some (op, t) := by
  cases op with
  | none =>
    show parseOptPh (nullChars ++ t) = some (none, t)
    rw [parseOptPh, if_pos (by rfl), expectChars_append]
    rfl
  | some p =>
    have hn : headIs (encPheromone p ++ t) 'n' = false := rfl
    rw [encOptPh, parseOptPh, if_neg (by rw [hn]; exact Bool.false_ne_true)]
    rw [parsePheromone_enc]
    rfl

/-- Fixed punctuation segments of the five message variants. -/
def pbSeg0 : List Char := '\x7b' :: keyChars ("PheromoneBroadcast") ++ '\x7b' :: keyChars ("pheromone")
def pbSeg1 : List Char := ',' :: keyChars ("sender")
def amSeg0 : List Char := '\x7b' :: keyChars ("AntMovement") ++ '\x7b' :: keyChars ("ant_id")
def amSeg1 : List Char := ',' :: keyChars ("from_node")
def amSeg2 : List Char := ',' :: keyChars ("to_node")
def amSeg3 : List Char := ',' :: keyChars ("carried_pheromone")
def ndSeg0 : List Char := '\x7b' :: keyChars ("NeighborDiscovery") ++ '\x7b' :: keyChars ("node_id")
def ndSeg1 : List Char := ',' :: keyChars ("neighbors")
def caSeg0 : List Char := '\x7b' :: keyChars ("ConsensusAnnouncement") ++ '\x7b' :: keyChars ("node_id")
def caSeg1 : List Char := ',' :: keyChars ("value") ++ '\x7b' :: keyChars ("hash")
def hbSeg0 : List Char := '\x7b' :: keyChars ("Heartbeat") ++ '\x7b' :: keyChars ("node_id")
def hbSeg1 : List Char := ',' :: keyChars ("timestamp")
def msgEnd : List Char := ['\x7d', '\x7d']
def caEnd : List Char := ['\x7d', '\x7d', '\x7d']

/-- Rust `Message::to_bytes` (`message.rs` lines 43-46), modelled from the
spec as the tagged-union text encoding. -/
def Message.to_bytes : Message → List Char
  | .PheromoneBroadcast p sender =>
    pbSeg0 ++ encPheromone p ++ pbSeg1 ++ natChars sender ++ msgEnd
  | .AntMovement ant_id from_node to_node carried =>
    amSeg0 ++ natChars ant_id ++ amSeg1 ++ natChars from_node ++ amSeg2 ++
      natChars to_node ++ amSeg3 ++ encOptPh carried ++ msgEnd
  | .NeighborDiscovery node_id neighbors =>
    ndSeg0 ++ natChars node_id ++ ndSeg1 ++ bytesChars neighbors ++ msgEnd
  | .ConsensusAnnouncement node_id value =>
    caSeg0 ++ natChars node_id ++ caSeg1 ++ bytesChars value.hash ++ caEnd
  | .Heartbeat node_id timestamp =>
    hbSeg0 ++ natChars node_id ++ hbSeg1 ++ natChars timestamp ++ msgEnd

def parsePB (cs : List Char) : Option (Message × List Char) := do
  let r0 ← expectChars pbSeg0 cs
  let p1 ← parsePheromone r0
  let r2 ← expectChars pbSeg1 p1.2
  let n3 := parseNat r2
  let r4 ← expectChars msgEnd n3.2
  some (.PheromoneBroadcast p1.1 n3.1, r4)

def parseAM (cs : List Char) : Option (Message × List Char) := do
  let r0 ← expectChars amSeg0 cs
  let n1 := parseNat r0
  let r2 ← expectChars amSeg1 n1.2
  let n3 := parseNat r2
  let r4 ← expectChars amSeg2 n3.2
  let n5 := parseNat r4
  let r6 ← expectChars amSeg3 n5.2
  let c7 ← parseOptPh r6
  let r8 ← expectChars msgEnd c7.2
  some (.AntMovement n1.1 n3.1 n5.1 c7.1, r8)

def parseND (cs : List Char) : Option (Message × List Char) := do
  let r0 ← expectChars ndSeg0 cs
  let n1 := parseNat r0
  let r2 ← expectChars ndSeg1 n1.2
  let b3 ← parseBytes r2
  let r4 ← expectChars msgEnd b3.2
  some (.NeighborDiscovery n1.1 b3.1, r4)

def parseCA (cs : List Char) : Option (Message × List Char) := do
  let r0 ← expectChars caSeg0 cs
  let n1 := parseNat r0
  let r2 ← expectChars caSeg1 n1.2
  let b3 ← parseBytes r2
  let r4 ← expectChars caEnd b3.2
  some (.ConsensusAnnouncement n1.1 ⟨b3.1⟩, r4)

def parseHB (cs : List Char) : Option (Message × List Char) := do
  let r0 ← expectChars hbSeg0 cs
  let n1 := parseNat r0
  let r2 ← expectChars hbSeg1 n1.2
  let n3 := parseNat r2
  let r4 ← expectChars msgEnd n3.2
  some (.Heartbeat n1.1 n3.1, r4)

/-- Dispatch on the first letter of the variant tag (the third character
of the encoding), which is distinct across the five variants. -/
def parseMessage (cs : List Char) : Option (Message × List Char) :=
  match cs with
  | _ :: _ :: c :: _ =>
    if c = 'P' then parsePB cs
    else if c = 'A' then parseAM cs
    else if c = 'N' then parseND cs
    else if c = 'C' then parseCA cs
    else if c = 'H' then parseHB cs
    else none
  | _ => none

/-- Rust `Message::from_bytes` (`message.rs` lines 49-52): parse and require
that the whole input is consumed. -/
def Message.from_bytes (cs : List Char) : Option Message :=
  match parseMessage cs with
  | some (m, []) => some m
  | _ => none

lemma headDigit_pbSeg1 (t : List Char) : headDigit (pbSeg1 ++ t) = false := rfl
lemma headDigit_amSeg1 (t : List Char) : headDigit (amSeg1 ++ t) = false := rfl
lemma headDigit_amSeg2 (t : List Char) : headDigit (amSeg2 ++ t) = false := rfl
lemma headDigit_amSeg3 (t : List Char) : headDigit (amSeg3 ++ t) = false := rfl
lemma headDigit_ndSeg1 (t : List Char) : headDigit (ndSeg1 ++ t) = false := rfl
lemma headDigit_caSeg1 (t : List Char) : headDigit (caSeg1 ++ t) = false := rfl
lemma headDigit_hbSeg1 (t : List Char) : headDigit (hbSeg1 ++ t) = false := rfl
lemma headDigit_msgEnd (t : List Char) : headDigit (msgEnd ++ t) = false := rfl
lemma headDigit_caEnd (t : List Char) : headDigit (caEnd ++ t) = false := rfl

lemma parsePB_enc (p : Pheromone) (sender : ℕ) (t : List Char) :
    parsePB (Message.to_bytes (.PheromoneBroadcast p sender) ++ t)
      = some (.PheromoneBroadcast p sender, t) := by
  rw [Message.to_bytes]
  simp only [List.append_assoc]
  rw [parsePB, expectChars_append]
  simp only [Option.bind_eq_bind, Option.some_bind]
  rw [parsePheromone_enc]
  simp only [Option.bind_eq_bind, Option.some_bind]
  rw [expectChars_append]
  simp only [Option.bind_eq_bind, Option.some_bind]
  rw [parseNat_natChars _ _ (headDigit_msgEnd _)]
  simp only
  rw [expectChars_append]
  simp only [Option.bind_eq_bind, Option.some_bind]

lemma parseAM_enc (ant_id from_node to_node : ℕ) (carried : Option Pheromone) (t : List Char) :
    parseAM (Message.to_bytes (.AntMovement ant_id from_node to_node carried) ++ t)
      = some (.AntMovement ant_id from_node to_node carried, t) := by
  rw [Message.to_bytes]
  simp only [List.append_assoc]
  rw [parseAM, expectChars_append]
  simp only [Option.bind_eq_bind, Option.some_bind]
  rw [parseNat_natChars _ _ (headDigit_amSeg1 _)]
  simp only
  rw [expectChars_append]
  simp only [Option.bind_eq_bind, Option.some_bind]
  rw [parseNat_natChars _ _ (headDigit_amSeg2 _)]
  simp only
  rw [expectChars_append]
  simp only [Option.bind_eq_bind, Option.some_bind]
  rw [parseNat_natChars _ _ (headDigit_amSeg3 _)]
  simp only
  rw [expectChars_append]
  simp only [Option.bind_eq_bind, Option.some_bind]
  rw [parseOptPh_enc]
  simp only [Option.bind_eq_bind, Option.some_bind]
  rw [expectChars_append]
  simp only [Option.bind_eq_bind, Option.some_bind]

lemma parseND_enc (node_id : ℕ) (neighbors : List ℕ) (t : List Char) :
    parseND (Message.to_bytes (.NeighborDiscovery node_id neighbors) ++ t)
      = some (.NeighborDiscovery node_id neighbors, t) := by
  rw [Message.to_bytes]
  simp only [List.append_assoc]
  rw [parseND, expectChars_append]
  simp only [Option.bind_eq_bind, Option.some_bind]
  rw [parseNat_natChars _ _ (headDigit_ndSeg1 _)]
  simp only
  rw [expectChars_append]
  simp only [Option.bind_eq_bind, Option.some_bind]
  rw [parseBytes_enc]
  simp only [Option.bind_eq_bind, Option.some_bind]
  rw [expectChars_append]
  simp only [Option.bind_eq_bind, Option.some_bind]

lemma parseCA_enc (node_id : ℕ) (value : ConsensusValue) (t : List Char) :
    parseCA (Message.to_bytes (.ConsensusAnnouncement node_id value) ++ t)
      = some (.ConsensusAnnouncement node_id value, t) := by
  rw [Message.to_bytes]
  simp only [List.append_assoc]
  rw [parseCA, expectChars_append]
  simp only [Option.bind_eq_bind, Option.some_bind]
  rw [parseNat_natChars _ _ (headDigit_caSeg1 _)]
  simp only
  rw [expectChars_append]
  simp only [Option.bind_eq_bind, Option.some_bind]
  rw [parseBytes_enc]
  simp only [Option.bind_eq_bind, Option.some_bind]
  rw [expectChars_append]
  simp only [Option.bind_eq_bind, Option.some_bind]

lemma parseHB_enc (node_id timestamp : ℕ) (t : List Char) :
    parseHB (Message.to_bytes (.Heartbeat node_id timestamp) ++ t)
      = some (.Heartbeat node_id timestamp, t) := by
  rw [Message.to_bytes]
  simp only [List.append_assoc]
  rw [parseHB, expectChars_append]
  simp only [Option.bind_eq_bind, Option.some_bind]
  rw [parseNat_natChars _ _ (headDigit_hbSeg1 _)]
  simp only
  rw [expectChars_append]
  simp only [Option.bind_eq_bind, Option.some_bind]
  rw [parseNat_natChars _ _ (headDigit_msgEnd _)]
  simp only
  rw [expectChars_append]
  simp only [Option.bind_eq_bind, Option.some_bind]

/-- Claim C7: deserializing the serialization of any message of any of
the five variants yields the message again. -/
theorem claim_C7 (m : Message) : Message.from_bytes (Message.to_bytes m) = some m := by
  have h : parseMessage (Message.to_bytes m ++ []) = some (m, []) := by
    cases m with
    | PheromoneBroadcast p sender =>
      show parseMessage _ = _
      rw [show parseMessage (Message.to_bytes (.PheromoneBroadcast p sender) ++ [])
          = parsePB (Message.to_bytes (.PheromoneBroadcast p sender) ++ []) from rfl]
      exact parsePB_enc p sender []
    | AntMovement a f o c =>
      rw [show parseMessage (Message.to_bytes (.AntMovement a f o c) ++ [])
          = parseAM (Message.to_bytes (.AntMovement a f o c) ++ []) from rfl]
      exact parseAM_enc a f o c []
    | NeighborDiscovery n nb =>
      rw [show parseMessage (Message.to_bytes (.NeighborDiscovery n nb) ++ [])
          = parseND (Message.to_bytes (.NeighborDiscovery n nb) ++ []) from rfl]
      exact parseND_enc n nb []
    | ConsensusAnnouncement n v =>
      rw [show parseMessage (Message.to_bytes (.ConsensusAnnouncement n v) ++ [])
          = parseCA (Message.to_bytes (.ConsensusAnnouncement n v) ++ []) from rfl]
      exact parseCA_enc n v []
    | Heartbeat n ts =>
      rw [show parseMessage (Message.to_bytes (.Heartbeat n ts) ++ [])
          = parseHB (Message.to_bytes (.Heartbeat n ts) ++ []) from rfl]
      exact parseHB_enc n ts []
  rw [List.append_nil] at h
  rw [Message.from_bytes, h]

/-- Maximum UDP datagram size; the receive buffer of `multicast.rs`
line 83 is `[0u8; 65507]`. -/
def MAX_DATAGRAM_SIZE : ℕ := 65507

/-- The sender task (`multicast.rs` lines 110-136) serializes each
queued message and hands the bytes to `send_to` unconditionally; a
sender that rejected a message would produce `none`. `broadcast`
(`multicast.rs` lines 234-237) merely enqueues, with no size check
either. -/
def senderDatagram (m : Message) : Option (List Char) :=
  some (Message.to_bytes m)

/-- A message whose serialization exceeds the maximum datagram size:
a neighbor discovery announcing 65,507 neighbors. -/
def bigMessage : Message :=
  Message.NeighborDiscovery 0 (List.replicate 65507 0)

lemma bytesAux_zeros_len : ∀ k, (bytesAux (List.replicate (k + 1) 0)).length = 2 * k + 2 := by
  intro k
  induction k with
  | zero => rfl
  | succ k ih =>
    rw [List.replicate_succ]
    rw [List.replicate_succ]
    have hstep : bytesAux (0 :: 0 :: List.replicate k 0)
        = natChars 0 ++ ',' :: bytesAux (0 :: List.replicate k 0) := rfl
    rw [hstep]
    rw [List.replicate_succ] at ih
    simp only [List.length_append, List.length_cons]
    have hn : (natChars 0).length = 1 := rfl
    rw [hn, ih]
    omega

/-- Claim C5 fails on the code: the sending path transmits every
serialized message with no 65,507-byte check. The concrete
`bigMessage` serializes to more than 131,000 bytes and is still handed
to the socket. -/
theorem claim_C5_code_bug :
    (∀ m : Message, senderDatagram m = some (Message.to_bytes m)) ∧
    MAX_DATAGRAM_SIZE < (Message.to_bytes bigMessage).length ∧
    senderDatagram bigMessage = some (Message.to_bytes bigMessage) := by
  refine ⟨fun m => rfl, ?_, rfl⟩
  have hlen : (bytesAux (List.replicate 65507 0)).length = 2 * 65506 + 2 := by
    rw [show (65507 : ℕ) = 65506 + 1 from by norm_num]
    exact bytesAux_zeros_len 65506
  show (65507 : ℕ) < _
  rw [bigMessage, Message.to_bytes, bytesChars]
  rw [List.length_append, List.length_append, List.length_append, List.length_append,
    List.length_cons, hlen]
  omega

end AntConsensus
